import Mathlib

/-!
Verification of the DOCX anonymization engine (`src/anonymizer.py`).

Text is modelled as `List Char` (ASCII model of Python `str`: `str.strip`,
`str.lower`, `\w`, `\d`, `[A-Za-z]` and case folding are all ASCII in the
inputs the engine handles; the Python originals are Unicode-aware but the
claims under verification only exercise ASCII behaviour).

The three `re.sub` calls of `_anonymize_author_section` use only these regex
features: literal characters, character classes with counted greedy
repetition (`+`, `{2,}`, `{4}`, `[0-9X]`), the word-boundary assertion `\b`,
and `re.IGNORECASE` on an escaped literal.  `matchToks` below implements a
backtracking matcher for exactly this fragment (greedy: longest repetition
first, backtracking on failure, leftmost match wins), and `reSub` implements
`re.sub`'s scan (match against the original string, replacement text does not
participate in later matches, search resumes after the matched span).
-/

namespace DocxAnon

/-- Python `str.strip()`: drop leading and trailing whitespace. -/
def pyStrip (l : List Char) : List Char :=
  ((l.dropWhile Char.isWhitespace).reverse.dropWhile Char.isWhitespace).reverse

/-- Python `str.lower()` (ASCII). -/
def pyLower (l : List Char) : List Char := l.map Char.toLower

/-- `pat` matches at the head of `hay`. -/
def leadMatch : List Char → List Char → Bool
  | [], _ => true
  | _ :: _, [] => false
  | c :: p, d :: h => c == d && leadMatch p h

/-- Python substring test `pat in hay`. -/
def containsSub : List Char → List Char → Bool
  | [], pat => leadMatch pat []
  | c :: h, pat => leadMatch pat (c :: h) || containsSub h pat

/-- Accumulator pass for Python `str.split()` (split on whitespace runs,
no empty words). -/
def pyWordsAux : List Char → List Char → List (List Char)
  | [], acc => match acc with
    | [] => []
    | _ => [acc.reverse]
  | c :: s, acc =>
    if c.isWhitespace then
      match acc with
      | [] => pyWordsAux s []
      | _ => acc.reverse :: pyWordsAux s []
    else pyWordsAux s (c :: acc)

/-- Python `str.split()`. -/
def pyWords (l : List Char) : List (List Char) := pyWordsAux l []

/-- Python `str.endswith(c)` for a single character. -/
def endsWithChar (l : List Char) (c : Char) : Bool := l.getLast? == some c

/-- Regex `\w` (ASCII): letters, digits, underscore. -/
def isWordChar (c : Char) : Bool := c.isAlphanum || c == '_'

def optWord : Option Char → Bool
  | some c => isWordChar c
  | none => false

/-- Regex `\b` between neighbouring characters `prev` and `next`
(`none` = outside the string): exactly one side is a word character. -/
def boundaryAt (prev next : Option Char) : Bool := optWord prev != optWord next

/-- One element of the regex fragment used by the anonymizer:
word boundary, literal character, or a character class repeated greedily
between `lo` and `hi` times (`hi = none` means unbounded). -/
inductive Tok : Type where
  | wb : Tok
  | lit : Char → Tok
  | cls : (Char → Bool) → Nat → Option Nat → Tok

/-- Length of the maximal run of `p`-characters at the head of the list. -/
def leadCount (p : Char → Bool) : List Char → Nat
  | [] => 0
  | c :: s => if p c then leadCount p s + 1 else 0

/-- The character preceding position `k` of `s` (`prev` when `k = 0`). -/
def prevAfter (prev : Option Char) (s : List Char) (k : Nat) : Option Char :=
  if k = 0 then prev else s[k-1]?

/-- Greedy repetition driver: try `lo + i + 1` down to `lo`, first success
wins (regex greedy quantifier with backtracking). -/
def greedyAux (att : Nat → Option Nat) (lo : Nat) : Nat → Option Nat
  | 0 => att lo
  | i + 1 =>
    match att (lo + i + 1) with
    | some n => some n
    | none => greedyAux att lo i

/-- Match a token list at the head of `s`; `prev` is the character just
before the current position in the subject string.  Returns the number of
characters consumed on success. -/
def matchToks : List Tok → Option Char → List Char → Option Nat
  | [], _, _ => some 0
  | Tok.wb :: ts, prev, s =>
    if boundaryAt prev s.head? then matchToks ts prev s else none
  | Tok.lit _ :: _, _, [] => none
  | Tok.lit c :: ts, _, d :: s' =>
    if d == c then (matchToks ts (some d) s').map (· + 1) else none
  | Tok.cls p lo hi :: ts, prev, s =>
    let cap := match hi with
      | none => leadCount p s
      | some h => min h (leadCount p s)
    if lo ≤ cap then
      greedyAux (fun k => (matchToks ts (prevAfter prev s k) (s.drop k)).map (· + k))
        lo (cap - lo)
    else none

/-- `re.sub` scan with explicit fuel (each step consumes at least one
character, so `s.length` steps suffice; the patterns used here never match
the empty string, and a zero-length match is treated as no match). -/
def subScan (toks : List Tok) (repl : List Char) : Nat → Option Char → List Char → List Char
  | 0, _, s => s
  | f + 1, prev, s =>
    match matchToks toks prev s with
    | some (n + 1) => repl ++ subScan toks repl f s[n]? (s.drop (n + 1))
    | _ =>
      match s with
      | [] => []
      | c :: s' => c :: subScan toks repl f (some c) s'

/-- Python `re.sub(pattern, repl, s)` for the fragment above. -/
def reSub (toks : List Tok) (repl : List Char) (s : List Char) : List Char :=
  subScan toks repl s.length none s

/-! ## The three substitution patterns of `_anonymize_author_section` -/

/-- The class `[A-Za-z0-9._%+-]` (email local part). -/
def localChar (c : Char) : Bool :=
  c.isAlpha || c.isDigit || c == '.' || c == '_' || c == '%' || c == '+' || c == '-'

/-- The class `[A-Za-z0-9.-]` (email domain). -/
def domainChar (c : Char) : Bool := c.isAlpha || c.isDigit || c == '.' || c == '-'

/-- The class `[A-Z|a-z]` (email top-level label).  Note that the source
regex literally lists `|` inside the class, so the pipe character is a
member. -/
def tldChar (c : Char) : Bool := c.isAlpha || c == '|'

/-- `r'\b[A-Za-z0-9._%+-]+@[A-Za-z0-9.-]+\.[A-Z|a-z]{2,}\b'`. -/
def emailToks : List Tok :=
  [Tok.wb, Tok.cls localChar 1 none, Tok.lit '@', Tok.cls domainChar 1 none,
   Tok.lit '.', Tok.cls tldChar 2 none, Tok.wb]

/-- Step 2 of the run loop: `re.sub(email_pattern, '[EMAIL]', text)`. -/
def email_sub (s : List Char) : List Char := reSub emailToks "[EMAIL]".data s

/-- `r'\b\d{4}-\d{4}-\d{4}-\d{3}[0-9X]\b'`. -/
def orcidToks : List Tok :=
  [Tok.wb, Tok.cls Char.isDigit 4 (some 4), Tok.lit '-', Tok.cls Char.isDigit 4 (some 4),
   Tok.lit '-', Tok.cls Char.isDigit 4 (some 4), Tok.lit '-', Tok.cls Char.isDigit 3 (some 3),
   Tok.cls (fun c => c.isDigit || c == 'X') 1 (some 1), Tok.wb]

/-- Step 3 of the run loop: `re.sub(orcid_pattern, '[ORCID]', text)`. -/
def orcid_sub (s : List Char) : List Char := reSub orcidToks "[ORCID]".data s

/-- One character of `re.escape(name)` under `re.IGNORECASE`: a literal
matched case-insensitively. -/
def ciLit (c : Char) : Tok := Tok.cls (fun d => d.toLower == c.toLower) 1 (some 1)

/-- `r'\b' + re.escape(name) + r'\b'`. -/
def nameToks (n : List Char) : List Tok := Tok.wb :: (n.map ciLit ++ [Tok.wb])

/-- One iteration of step 1 of the run loop:
`re.sub(pattern, '[AUTHOR_NAME]', text, flags=re.IGNORECASE)`. -/
def name_sub (n : List Char) (s : List Char) : List Char :=
  reSub (nameToks n) "[AUTHOR_NAME]".data s

/-- Step 1 of the run loop: the `for name in detected_names` loop
(iteration order of the Python set is modelled by the list order). -/
def name_sub_all (detected_names : List (List Char)) (s : List Char) : List Char :=
  detected_names.foldl (fun acc n => name_sub n acc) s

/-! ## `_is_likely_affiliation` and the affiliation branch -/

/-- The keyword list of `_is_likely_affiliation`. -/
def LIKELY_KEYWORDS : List (List Char) :=
  ["department".data, "university".data, "institute".data, "college".data]

/-- `_is_likely_affiliation`.  The first-character digit test sits behind
the two length guards, so it is only evaluated on a non-empty list (the
`[]` branch below is unreachable: it needs `10 ≤ length`). -/
def is_likely_affiliation (text : List Char) : Bool :=
  let text_stripped := pyStrip text
  if text_stripped.length < 10 then false
  else if text_stripped.length > 300 then false
  else
    match text_stripped with
    | [] => false
    | c :: _ =>
      if c.isDigit then true
      else
        let first_words := pyLower (List.intercalate [' '] ((pyWords text_stripped).take 3))
        LIKELY_KEYWORDS.any (fun kw => containsSub first_words kw)

/-- The keyword list of step 4 of the run loop. -/
def AFFILIATION_KEYWORDS : List (List Char) :=
  ["university".data, "department".data, "institute".data,
   "college".data, "school".data, "center".data, "centre".data]

/-- The body of the run loop of `_anonymize_author_section`: steps 1-3 on
the running text, then the whole-run affiliation replacement keyed on the
*original* text.  (Writing `run.text` back only when the result differs is
observationally the identity, so it is not modelled separately.) -/
def anonymize_run_text (detected_names : List (List Char)) (original_text : List Char) :
    List Char :=
  if is_likely_affiliation original_text then
    if AFFILIATION_KEYWORDS.any (fun kw => containsSub (pyLower original_text) kw) then
      if decide ((pyStrip original_text).length < 200) && !(endsWithChar original_text '.') then
        "[AUTHOR_AFFILIATION]".data
      else orcid_sub (email_sub (name_sub_all detected_names original_text))
    else orcid_sub (email_sub (name_sub_all detected_names original_text))
  else orcid_sub (email_sub (name_sub_all detected_names original_text))

/-! ## Document model -/

/-- A run: the unit of mutation.  `fmt` stands for all non-text (formatting)
attributes, opaque to the engine. -/
structure Run (α : Type) where
  text : List Char
  fmt : α
deriving DecidableEq

/-- `paragraph.text`: concatenation of the texts of the paragraph's runs. -/
def paraText {α : Type} (p : List (Run α)) : List Char := (p.map Run.text).flatten

/-! ## Boundary detection -/

/-- `REFERENCE_MARKERS`. -/
def REFERENCE_MARKERS : List (List Char) :=
  ["references".data, "bibliography".data, "works cited".data,
   "literature cited".data, "cited literature".data]

/-- The per-paragraph test of `_find_reference_section`:
`text = para.text.strip().lower()`, then `len(text) < 50 and any(marker in
text for marker in REFERENCE_MARKERS)`. -/
def isReferenceHeading (t : List Char) : Bool :=
  let text := pyLower (pyStrip t)
  decide (text.length < 50) && REFERENCE_MARKERS.any (fun m => containsSub text m)

/-- `_find_reference_section`: index of the first matching paragraph, or the
paragraph count if none matches (`List.findIdx` returns the length in that
case, exactly the Python fallback). -/
def find_reference_section {α : Type} (doc : List (List (Run α))) : Nat :=
  doc.findIdx (fun p => isReferenceHeading (paraText p))

/-- `CONTENT_START_MARKERS`. -/
def CONTENT_START_MARKERS : List (List Char) :=
  ["abstract".data, "introduction".data, "background".data,
   "methods".data, "methodology".data, "materials and methods".data]

/-- The per-paragraph test of `_find_author_section_end`. -/
def isContentStart (t : List Char) : Bool :=
  let text := pyLower (pyStrip t)
  decide (text.length < 50) && CONTENT_START_MARKERS.any (fun m => containsSub text m)

/-- `_find_author_section_end`: scan `range(min(reference_start,
len(paragraphs)))` (= `doc.take reference_start`), return the first matching
index, else `min(15, reference_start)`. -/
def find_author_section_end {α : Type} (doc : List (List (Run α))) (reference_start : Nat) :
    Nat :=
  let searched := doc.take reference_start
  let i := searched.findIdx (fun p => isContentStart (paraText p))
  if i < searched.length then i else min 15 reference_start

/-! ## Name extraction -/

/-- A span returned by the external Name Recognizer (`doc_nlp.ents`). -/
structure Entity : Type where
  text : List Char
  label : List Char
deriving DecidableEq

/-- `' '.join(para.text for para in doc.paragraphs[:author_section_end])`. -/
def author_section_text {α : Type} (doc : List (List (Run α))) (author_section_end : Nat) :
    List Char :=
  List.intercalate [' '] ((doc.take author_section_end).map paraText)

/-- The filter of `_extract_person_names` on the recognizer output: keep
`PERSON` spans of length `> 2`; `dedup` models the Python `set`. -/
def person_names_from (ents : List Entity) : List (List Char) :=
  ((ents.filter fun e => e.label == "PERSON".data && decide (2 < e.text.length)).map
    Entity.text).dedup

/-- `_extract_person_names`, with the recognizer passed as a function. -/
def extract_person_names {α : Type} (nlp : List Char → List Entity)
    (doc : List (List (Run α))) (author_section_end : Nat) : List (List Char) :=
  person_names_from (nlp (author_section_text doc author_section_end))

/-! ## The redaction pass and the orchestrator -/

/-- The inner run loop: every run of the paragraph gets its text rewritten
(formatting untouched). -/
def anonymize_paragraph {α : Type} (detected_names : List (List Char)) (p : List (Run α)) :
    List (Run α) :=
  p.map fun r => { r with text := anonymize_run_text detected_names r.text }

/-- `_anonymize_author_section`: rewrite the runs of paragraphs
`[0, author_section_end)`, leave the rest untouched.  (Python iterates
`range(author_section_end)` and indexes the paragraph list, which requires
`author_section_end ≤ len(paragraphs)` — guaranteed by the boundary
invariant; this recursion agrees with the loop on that domain.) -/
def anonymize_author_section {α : Type} :
    List (List (Run α)) → Nat → List (List Char) → List (List (Run α))
  | doc, 0, _ => doc
  | [], _ + 1, _ => []
  | p :: doc, e + 1, detected_names =>
    anonymize_paragraph detected_names p :: anonymize_author_section doc e detected_names

/-- `anonymize_document`: the orchestrator.  The fallible collaborators
(document load, the NER call, document save) are passed as `Except`-valued
inputs; the surrounding `try/except` maps any failure to `false` and success
to `true`. -/
def anonymize_document {α E : Type} (load : Except E (List (List (Run α))))
    (nlp : List Char → Except E (List Entity))
    (save : List (List (Run α)) → Except E Unit) : Bool :=
  match load with
  | Except.error _ => false
  | Except.ok doc =>
    let reference_start_idx := find_reference_section doc
    let author_end := find_author_section_end doc reference_start_idx
    match nlp (author_section_text doc author_end) with
    | Except.error _ => false
    | Except.ok ents =>
      let detected_names := person_names_from ents
      match save (anonymize_author_section doc author_end detected_names) with
      | Except.error _ => false
      | Except.ok _ => true


/-! ## Specification-side definitions

These follow the wording of the specification / claims, to be compared with
the definitions above, which are translated from the source. -/

/-- The affiliation-replacement condition as the specification words it
(claim C3): the original run text satisfies the affiliation heuristic, AND
contains case-insensitively one of {university, department, institute,
college, school, center, centre}, AND its trimmed length is under 200
characters, AND it does not end with a period. -/
def specAffiliationReplace (text : List Char) : Bool :=
  is_likely_affiliation text &&
  (["university".data, "department".data, "institute".data, "college".data,
    "school".data, "center".data, "centre".data].any
    (fun kw => containsSub (pyLower text) kw)) &&
  (decide ((pyStrip text).length < 200) && !(endsWithChar text '.'))

/-- Local-part class as the claim words it: "ASCII local-part characters
including `.`, `_`, `%`, `+`, `-`". -/
def specLocalChar (c : Char) : Bool :=
  c.isAlpha || c.isDigit || (c == '.' || c == '_' || c == '%' || c == '+' || c == '-')

/-- Domain class: letters, digits, dot, hyphen. -/
def specDomainChar (c : Char) : Bool := c.isAlpha || c.isDigit || (c == '.' || c == '-')

/-- Top-level label class as claim C4 words it: letters only. -/
def specTldLetterChar (c : Char) : Bool := c.isAlpha

/-- Top-level label class as the source actually has it: the class
`[A-Z|a-z]` — letters or the literal pipe. -/
def specTldPipeChar (c : Char) : Bool := c.isAlpha || c == '|'

/-- The email substitution exactly as claim C4 words it (top-level label of
at least two letters). -/
def spec_email_sub_letters (s : List Char) : List Char :=
  reSub [Tok.wb, Tok.cls specLocalChar 1 none, Tok.lit '@', Tok.cls specDomainChar 1 none,
    Tok.lit '.', Tok.cls specTldLetterChar 2 none, Tok.wb] "[EMAIL]".data s

/-- The email substitution with the amended top-level class (letters or
pipe). -/
def spec_email_sub_pipe (s : List Char) : List Char :=
  reSub [Tok.wb, Tok.cls specLocalChar 1 none, Tok.lit '@', Tok.cls specDomainChar 1 none,
    Tok.lit '.', Tok.cls specTldPipeChar 2 none, Tok.wb] "[EMAIL]".data s

/-- The four placeholder tokens emitted by the redaction pass. -/
def placeholderTokens : List (List Char) :=
  ["[AUTHOR_NAME]".data, "[EMAIL]".data, "[ORCID]".data, "[AUTHOR_AFFILIATION]".data]

/-- The bracket-stripped inner words of the placeholder tokens,
lower-cased. -/
def placeholderInnerWords : List (List Char) :=
  ["author_name".data, "email".data, "orcid".data, "author_affiliation".data]

/-! ## Concrete documents used by witnesses -/

/-- A concrete 20-paragraph document with no content-start marker. -/
def docTwenty : List (List (Run Unit)) := List.replicate 20 [⟨"filler text".data, ()⟩]

/-- A two-paragraph document: an author line and a reference line. -/
def docFrame : List (List (Run Nat)) :=
  [[⟨"Contact: a@b.cd".data, 7⟩], [⟨"References".data, 9⟩]]

/-- A three-paragraph document whose second paragraph is a reference
heading. -/
def docRef : List (List (Run Unit)) :=
  [[⟨"Author line".data, ()⟩], [⟨"References".data, ()⟩], [⟨"Smith, J. (2020).".data, ()⟩]]

/-- A recognizer that answers only on one fixed text. -/
def nlpOnly (key : List Char) (ans : List Entity) : List Char → List Entity :=
  fun s => if s = key then ans else []

/-- A single-paragraph author block for the C7 witness. -/
def docNames : List (List (Run Unit)) :=
  [[⟨"Authors: John Smith".data, ()⟩], [⟨"References".data, ()⟩]]

/-! ## Helper lemmas -/

theorem getD_eq_getElem_of_lt {β : Type} (l : List β) (d : β) {j : Nat} (h : j < l.length) :
    l.getD j d = l[j] := by
  simp [List.getD_eq_getElem?_getD, List.getElem?_eq_getElem h]

theorem find_author_section_end_le {α : Type} (doc : List (List (Run α))) (r : Nat) :
    find_author_section_end doc r ≤ r := by
  simp only [find_author_section_end]
  split
  · next h =>
    calc (doc.take r).findIdx (fun p => isContentStart (paraText p))
        ≤ (doc.take r).length := List.findIdx_le_length _
      _ ≤ r := by simp [List.length_take]
  · exact Nat.min_le_right 15 r

/-- Claim C2: the boundary indices computed by the pipeline satisfy
`0 ≤ author_section_end ≤ reference_start ≤ paragraph_count` (the lower
bound `0 ≤ _` is automatic for natural numbers). -/
theorem boundary_monotonicity {α : Type} (doc : List (List (Run α))) :
    find_author_section_end doc (find_reference_section doc) ≤ find_reference_section doc ∧
    find_reference_section doc ≤ doc.length :=
  ⟨find_author_section_end_le doc (find_reference_section doc),
   List.findIdx_le_length _⟩

/-- Claim C5: `find_reference_section` returns the index of the first
paragraph whose trimmed, lower-cased text has length under 50 and contains
one of the reference markers as a substring (that is `isReferenceHeading`);
if no paragraph qualifies it returns the paragraph count. -/
theorem find_reference_section_first {α : Type} (doc : List (List (Run α))) :
    find_reference_section doc ≤ doc.length ∧
    (∀ j, j < find_reference_section doc →
      isReferenceHeading (paraText (doc.getD j [])) = false) ∧
    (find_reference_section doc < doc.length →
      isReferenceHeading (paraText (doc.getD (find_reference_section doc) [])) = true) ∧
    ((∀ j, j < doc.length → isReferenceHeading (paraText (doc.getD j [])) = false) →
      find_reference_section doc = doc.length) := by
  refine ⟨List.findIdx_le_length _, ?_, ?_, ?_⟩
  · intro j hj
    have hjl : j < doc.length := Nat.lt_of_lt_of_le hj (List.findIdx_le_length _)
    rw [getD_eq_getElem_of_lt doc [] hjl]
    simpa using List.not_of_lt_findIdx hj
  · intro hlt
    rw [getD_eq_getElem_of_lt doc [] hlt]
    simpa using @List.findIdx_getElem _ (fun p => isReferenceHeading (paraText p)) doc hlt
  · intro hall
    apply List.findIdx_eq_length.mpr
    intro x hx
    obtain ⟨j, hj, rfl⟩ := List.getElem_of_mem hx
    have := hall j hj
    rwa [getD_eq_getElem_of_lt doc [] hj] at this

theorem find_reference_section_first_witness :
    find_reference_section docRef = 1 ∧
    find_reference_section docRef < docRef.length ∧
    isReferenceHeading (paraText (docRef.getD (find_reference_section docRef) [])) = true :=
  ⟨by decide, by decide, (find_reference_section_first docRef).2.2.1 (by decide)⟩

/-- Claim C6: for `reference_start ≤ paragraph_count`,
`find_author_section_end` returns the first index in `[0, reference_start)`
whose paragraph is a content-start marker, and `min 15 reference_start` when
no such paragraph exists in that range. -/
theorem find_author_section_end_spec {α : Type} (doc : List (List (Run α))) (r : Nat)
    (hr : r ≤ doc.length) :
    (∀ j, j < find_author_section_end doc r →
      isContentStart (paraText (doc.getD j [])) = false) ∧
    ((∃ j, j < r ∧ isContentStart (paraText (doc.getD j [])) = true) →
      find_author_section_end doc r < r ∧
      isContentStart (paraText (doc.getD (find_author_section_end doc r) [])) = true) ∧
    ((∀ j, j < r → isContentStart (paraText (doc.getD j [])) = false) →
      find_author_section_end doc r = min 15 r) := by
  have hlen : (doc.take r).length = r := by simp [List.length_take, Nat.min_eq_left hr]
  have key : ∀ j (hj : j < (doc.take r).length), (doc.take r)[j] = doc.getD j [] := by
    intro j hj
    rw [List.getElem_take]
    exact (getD_eq_getElem_of_lt doc [] (by omega)).symm
  by_cases hex : ∃ x ∈ doc.take r, isContentStart (paraText x) = true
  · have hidx : (doc.take r).findIdx (fun p => isContentStart (paraText p)) <
        (doc.take r).length := List.findIdx_lt_length_of_exists (by simpa using hex)
    have hres : find_author_section_end doc r =
        (doc.take r).findIdx (fun p => isContentStart (paraText p)) := by
      simp only [find_author_section_end]
      rw [if_pos hidx]
    refine ⟨?_, ?_, ?_⟩
    · intro j hj
      rw [hres] at hj
      have hjtake : j < (doc.take r).length :=
        Nat.lt_of_lt_of_le hj (List.findIdx_le_length _)
      have hnot := List.not_of_lt_findIdx hj
      rw [key j hjtake] at hnot
      simpa using hnot
    · intro _
      constructor
      · rw [hres]; omega
      · have hp := @List.findIdx_getElem _ (fun p => isContentStart (paraText p))
          (doc.take r) hidx
        rw [key _ hidx] at hp
        rw [hres]
        simpa using hp
    · intro hall
      exfalso
      obtain ⟨x, hx, hpx⟩ := hex
      obtain ⟨j, hj, rfl⟩ := List.getElem_of_mem hx
      rw [key j hj] at hpx
      rw [hall j (by omega)] at hpx
      exact Bool.false_ne_true hpx
  · have hall : ∀ x ∈ doc.take r, isContentStart (paraText x) = false := by
      intro x hx
      by_contra hne
      exact hex ⟨x, hx, by simpa using hne⟩
    have hidx : (doc.take r).findIdx (fun p => isContentStart (paraText p)) =
        (doc.take r).length := List.findIdx_eq_length.mpr (by simpa using hall)
    have hres : find_author_section_end doc r = min 15 r := by
      simp only [find_author_section_end]
      rw [if_neg (by omega)]
    refine ⟨?_, ?_, fun _ => hres⟩
    · intro j hj
      have hjr : j < r := by
        have := find_author_section_end_le doc r
        omega
      have hjtake : j < (doc.take r).length := by omega
      have := hall _ (List.getElem_mem hjtake)
      rwa [key j hjtake] at this
    · intro ⟨j, hjr, hpj⟩
      exfalso
      have hjtake : j < (doc.take r).length := by omega
      have := hall _ (List.getElem_mem hjtake)
      rw [key j hjtake] at this
      rw [this] at hpj
      exact Bool.false_ne_true hpj


theorem find_author_section_end_spec_witness :
    20 ≤ docTwenty.length ∧
    ((∀ j, j < find_author_section_end docTwenty 20 →
        isContentStart (paraText (docTwenty.getD j [])) = false) ∧
      ((∃ j, j < 20 ∧ isContentStart (paraText (docTwenty.getD j [])) = true) →
        find_author_section_end docTwenty 20 < 20 ∧
        isContentStart (paraText (docTwenty.getD (find_author_section_end docTwenty 20) [])) =
          true) ∧
      ((∀ j, j < 20 → isContentStart (paraText (docTwenty.getD j [])) = false) →
        find_author_section_end docTwenty 20 = min 15 20)) ∧
    find_author_section_end docTwenty 20 = 15 :=
  ⟨by decide, find_author_section_end_spec docTwenty 20 (by decide), by decide⟩

/-! ## Claim C1: the frame property of the redaction pass -/

theorem anonymize_author_section_length {α : Type} (doc : List (List (Run α))) (e : Nat)
    (names : List (List Char)) :
    (anonymize_author_section doc e names).length = doc.length := by
  induction doc generalizing e with
  | nil => cases e <;> rfl
  | cons p rest ih =>
    cases e with
    | zero => rfl
    | succ e' => simp [anonymize_author_section, ih]

theorem anonymize_author_section_drop {α : Type} (doc : List (List (Run α))) (e : Nat)
    (names : List (List Char)) :
    (anonymize_author_section doc e names).drop e = doc.drop e := by
  induction doc generalizing e with
  | nil => cases e <;> rfl
  | cons p rest ih =>
    cases e with
    | zero => rfl
    | succ e' => simpa [anonymize_author_section] using ih e'

theorem anonymize_paragraph_fmt {α : Type} (names : List (List Char)) (p : List (Run α)) :
    (anonymize_paragraph names p).map Run.fmt = p.map Run.fmt := by
  simp only [anonymize_paragraph, List.map_map]
  rfl

theorem anonymize_author_section_fmt {α : Type} (doc : List (List (Run α))) (e : Nat)
    (names : List (List Char)) :
    (anonymize_author_section doc e names).map (fun p => p.map Run.fmt) =
      doc.map (fun p => p.map Run.fmt) := by
  induction doc generalizing e with
  | nil => cases e <;> rfl
  | cons p rest ih =>
    cases e with
    | zero => rfl
    | succ e' => simp [anonymize_author_section, ih, anonymize_paragraph_fmt]

/-- Claim C1: for a valid boundary (`author_section_end ≤ paragraph count`),
the redaction pass preserves the paragraph count, leaves every paragraph at
or beyond `author_section_end` byte-identical (hence every run in or after
the reference section), and preserves the non-text (formatting) attributes
of every run, so at most the text field of runs in paragraphs
`[0, author_section_end)` is modified. -/
theorem anonymize_author_section_frame {α : Type} (doc : List (List (Run α)))
    (author_section_end : Nat) (names : List (List Char))
    (hvalid : author_section_end ≤ doc.length) :
    (anonymize_author_section doc author_section_end names).length = doc.length ∧
    (anonymize_author_section doc author_section_end names).drop author_section_end =
      doc.drop author_section_end ∧
    (anonymize_author_section doc author_section_end names).map (fun p => p.map Run.fmt) =
      doc.map (fun p => p.map Run.fmt) :=
  ⟨anonymize_author_section_length doc author_section_end names,
   anonymize_author_section_drop doc author_section_end names,
   anonymize_author_section_fmt doc author_section_end names⟩

theorem anonymize_author_section_frame_witness :
    1 ≤ docFrame.length ∧
    ((anonymize_author_section docFrame 1 []).length = docFrame.length ∧
      (anonymize_author_section docFrame 1 []).drop 1 = docFrame.drop 1 ∧
      (anonymize_author_section docFrame 1 []).map (fun p => p.map Run.fmt) =
        docFrame.map (fun p => p.map Run.fmt)) :=
  ⟨by decide, anonymize_author_section_frame docFrame 1 [] (by decide)⟩

/-! ## Claim C10: totality and length gating of `_is_likely_affiliation` -/

/-- Claim C10: `is_likely_affiliation` is a total boolean function (it is a
Lean `def`, so totality holds by construction; the first-character test sits
behind the `length < 10` guard, so the head pattern-match is only reached on
a non-empty list), and every input whose trimmed length is below 10 or above
300 yields `false`. -/
theorem is_likely_affiliation_total_bounds (text : List Char)
    (h : (pyStrip text).length < 10 ∨ 300 < (pyStrip text).length) :
    is_likely_affiliation text = false := by
  simp only [is_likely_affiliation]
  rcases h with h | h
  · rw [if_pos h]
  · rw [if_neg (by omega), if_pos (by omega)]

theorem is_likely_affiliation_total_bounds_witness :
    ((pyStrip "hi".data).length < 10 ∨ 300 < (pyStrip "hi".data).length) ∧
    is_likely_affiliation "hi".data = false :=
  ⟨Or.inl (by decide), is_likely_affiliation_total_bounds "hi".data (Or.inl (by decide))⟩

/-! ## Claim C8: the orchestrator's boolean boundary -/

/-- Claim C8: `anonymize_document` is a total boolean function (so no
exception crosses the boundary in the model); it returns `true` exactly when
load, recognition and save all succeed (redaction is pure and cannot fail),
and in particular an empty document with no rewritten paragraph is a
success. -/
theorem anonymize_document_result {α E : Type} (load : Except E (List (List (Run α))))
    (nlp : List Char → Except E (List Entity))
    (save : List (List (Run α)) → Except E Unit) :
    (anonymize_document load nlp save = true ↔
      ∃ doc ents,
        load = Except.ok doc ∧
        nlp (author_section_text doc
          (find_author_section_end doc (find_reference_section doc))) = Except.ok ents ∧
        save (anonymize_author_section doc
          (find_author_section_end doc (find_reference_section doc))
          (person_names_from ents)) = Except.ok ()) ∧
    anonymize_document (Except.ok ([] : List (List (Run Unit))))
      (fun _ => (Except.ok [] : Except Unit (List Entity))) (fun _ => Except.ok ()) = true := by
  constructor
  · cases load with
    | error err => simp [anonymize_document]
    | ok doc =>
      simp only [anonymize_document]
      cases hn : nlp (author_section_text doc
          (find_author_section_end doc (find_reference_section doc))) with
      | error err => simp [hn]
      | ok ents =>
        cases hs : save (anonymize_author_section doc
            (find_author_section_end doc (find_reference_section doc))
            (person_names_from ents)) with
        | error err => simp [hn, hs]
        | ok u => cases u; simp [hn, hs]
  · rfl

/-! ## Claim C7: name extraction -/

/-- Claim C7: `extract_person_names` returns exactly the distinct
person-labelled spans of length `> 2` that the recognizer yields on the
single-space join of paragraphs `[0, author_section_end)`; the result
depends on the recognizer only through its value on that author-section
text, so reference-section text is never consulted. -/
theorem extract_person_names_spec {α : Type} (nlp : List Char → List Entity)
    (doc : List (List (Run α))) (author_section_end : Nat) :
    (∀ s, s ∈ extract_person_names nlp doc author_section_end ↔
      ∃ ent, ent ∈ nlp (author_section_text doc author_section_end) ∧
        ent.label = "PERSON".data ∧ 2 < ent.text.length ∧ ent.text = s) ∧
    (extract_person_names nlp doc author_section_end).Nodup ∧
    (∀ nlp' : List Char → List Entity,
      nlp' (author_section_text doc author_section_end) =
        nlp (author_section_text doc author_section_end) →
      extract_person_names nlp' doc author_section_end =
        extract_person_names nlp doc author_section_end) := by
  refine ⟨?_, ?_, ?_⟩
  · intro s
    simp only [extract_person_names, person_names_from, List.mem_dedup, List.mem_map,
      List.mem_filter, Bool.and_eq_true, beq_iff_eq, decide_eq_true_eq]
    constructor
    · rintro ⟨ent, ⟨hm, hl, ht⟩, rfl⟩
      exact ⟨ent, hm, hl, ht, rfl⟩
    · rintro ⟨ent, hm, hl, ht, rfl⟩
      exact ⟨ent, ⟨hm, hl, ht⟩, rfl⟩
  · exact List.nodup_dedup _
  · intro nlp' h
    simp only [extract_person_names]
    rw [h]

theorem extract_person_names_spec_witness :
    extract_person_names
        (nlpOnly "Authors: John Smith".data [⟨"John Smith".data, "PERSON".data⟩])
        docNames 1 =
      extract_person_names (fun _ => [⟨"John Smith".data, "PERSON".data⟩]) docNames 1 ∧
    extract_person_names (fun _ => [⟨"John Smith".data, "PERSON".data⟩]) docNames 1 =
      ["John Smith".data] :=
  ⟨(extract_person_names_spec (fun _ => [⟨"John Smith".data, "PERSON".data⟩]) docNames 1).2.2
      (nlpOnly "Authors: John Smith".data [⟨"John Smith".data, "PERSON".data⟩]) (by decide),
   by decide⟩

/-! ## Claim C3: the affiliation replacement condition -/

/-- Claim C3: a run's text is replaced whole by `[AUTHOR_AFFILIATION]` if
and only if the original (pre-substitution) text satisfies the
specification's four-part condition (`specAffiliationReplace`); when the
condition holds this whole-run replacement supersedes the name/email/ORCID
substitutions, and otherwise those three substitutions apply in order. -/
theorem anonymize_run_text_affiliation_iff (names : List (List Char)) (text : List Char) :
    anonymize_run_text names text =
      if specAffiliationReplace text then "[AUTHOR_AFFILIATION]".data
      else orcid_sub (email_sub (name_sub_all names text)) := by
  simp only [anonymize_run_text, specAffiliationReplace, AFFILIATION_KEYWORDS]
  split_ifs with h1 h2 h3 h4 <;> simp_all

/-! ## Claim C4: the email substitution (corrected) -/

/-- Counterexample to claim C4 as stated: the class `[A-Z|a-z]` of the
source regex contains the literal pipe, so `a@b.|a` — whose top-level label
`|a` contains the non-letter `|` — is replaced by the source pattern, while
the pattern described by the claim (top-level label of at least two letters)
does not match it at all. -/
theorem email_sub_tld_pipe_counterexample :
    email_sub "a@b.|a".data = "[EMAIL]".data ∧
    spec_email_sub_letters "a@b.|a".data = "a@b.|a".data ∧
    '|'.isAlpha = false := by
  refine ⟨by decide, by decide, by decide⟩

/-- Claim C4 (amended): the email substitution replaces exactly the
substrings matched by the pattern whose top-level label is at least two
characters each a letter OR the pipe character `|` (the class `[A-Z|a-z]`
literally includes `|`); equivalently, the source substitution coincides
with the spec-worded substitution once the top-level class is amended. -/
theorem email_sub_eq_spec_pipe (s : List Char) :
    email_sub s = spec_email_sub_pipe s := by
  have hl : localChar = specLocalChar := by
    funext c
    simp [localChar, specLocalChar, Bool.or_assoc]
  have hd : domainChar = specDomainChar := by
    funext c
    simp [domainChar, specDomainChar, Bool.or_assoc]
  have ht : tldChar = specTldPipeChar := by
    funext c
    rfl
  simp only [email_sub, spec_email_sub_pipe, emailToks, hl, hd, ht]

/-! ## Claim C9: matcher lemmas for the placeholder fixed-point theorem -/

theorem matchToks_wb_none (ts : List Tok) (prev : Option Char) (s : List Char)
    (h : boundaryAt prev s.head? = false) :
    matchToks (Tok.wb :: ts) prev s = none := by
  simp [matchToks, h]

theorem matchToks_wb_pass (ts : List Tok) (prev : Option Char) (s : List Char)
    (h : boundaryAt prev s.head? = true) :
    matchToks (Tok.wb :: ts) prev s = matchToks ts prev s := by
  simp [matchToks, h]

theorem prevAfter_zero (prev : Option Char) (s : List Char) : prevAfter prev s 0 = prev := by
  simp [prevAfter]

theorem prevAfter_cons (prev : Option Char) (c : Char) (s : List Char) (i : Nat) :
    prevAfter prev (c :: s) (i + 1) = prevAfter (some c) s i := by
  cases i with
  | zero => simp [prevAfter]
  | succ j => simp [prevAfter]

theorem matchToks_cls_one (p : Char → Bool) (ts : List Tok) (prev : Option Char)
    (s : List Char) :
    matchToks (Tok.cls p 1 (some 1) :: ts) prev s =
      match s with
      | [] => none
      | d :: s' => if p d then (matchToks ts (some d) s').map (· + 1) else none := by
  cases s with
  | nil => simp [matchToks, leadCount]
  | cons d s' =>
    by_cases hp : p d = true
    · have hcap : min 1 (leadCount p (d :: s')) = 1 := by
        simp [leadCount, hp]
      simp [matchToks, hcap, greedyAux, prevAfter, hp]
    · have hcap : min 1 (leadCount p (d :: s')) = 0 := by
        simp [leadCount, hp]
      simp [matchToks, hcap, hp]

/-- Matching `re.escape(n)` (case-insensitive) followed by `\b`: any
successful match consumes exactly `n.length` characters, those characters
agree with `n` up to lower-casing, and a word boundary holds after them. -/
theorem matchToks_ciLits_wb (n : List Char) :
    ∀ (prev : Option Char) (s : List Char) (k : Nat),
    matchToks (n.map ciLit ++ [Tok.wb]) prev s = some k →
    k = n.length ∧ n.length ≤ s.length ∧
      (s.take n.length).map Char.toLower = n.map Char.toLower ∧
      boundaryAt (prevAfter prev s k) (s.drop k).head? = true := by
  induction n with
  | nil =>
    intro prev s k h
    simp only [List.map_nil, List.nil_append] at h
    by_cases hb : boundaryAt prev s.head? = true
    · rw [matchToks_wb_pass _ _ _ hb] at h
      simp only [matchToks, Option.some.injEq] at h
      subst h
      refine ⟨rfl, Nat.zero_le _, rfl, ?_⟩
      rw [prevAfter_zero, List.drop_zero]
      exact hb
    · rw [matchToks_wb_none _ _ _ (by simpa using hb)] at h
      cases h
  | cons c n' ih =>
    intro prev s k h
    simp only [List.map_cons, List.cons_append] at h
    rw [show ciLit c = Tok.cls (fun d => d.toLower == c.toLower) 1 (some 1) from rfl,
      matchToks_cls_one] at h
    cases s with
    | nil => cases h
    | cons d s' =>
      simp only at h
      by_cases hp : (d.toLower == c.toLower) = true
      · rw [if_pos hp] at h
        obtain ⟨k0, hk0, hkk⟩ := Option.map_eq_some'.mp h
        obtain ⟨hk, hle, hmap, hbd⟩ := ih (some d) s' k0 hk0
        subst hkk
        refine ⟨by simp [hk], by simpa using Nat.succ_le_succ hle, ?_, ?_⟩
        · simp only [List.length_cons, List.take_succ_cons, List.map_cons, hmap,
            List.cons.injEq]
          exact ⟨beq_iff_eq.mp hp, trivial⟩
        · rw [prevAfter_cons, List.drop_succ_cons]
          exact hbd
      · rw [if_neg hp] at h
        cases h

/-- If the pattern fails at every scan position of `s`, `re.sub` is the
identity. -/
theorem subScan_id (toks : List Tok) (repl : List Char) :
    ∀ (f : Nat) (prev : Option Char) (s : List Char), s.length ≤ f →
    (∀ i, i ≤ s.length → matchToks toks (prevAfter prev s i) (s.drop i) = none) →
    subScan toks repl f prev s = s := by
  intro f
  induction f with
  | zero => intro prev s hle hfail; rfl
  | succ f ih =>
    intro prev s hle hfail
    have h0 := hfail 0 (Nat.zero_le _)
    rw [prevAfter_zero, List.drop_zero] at h0
    cases s with
    | nil => simp [subScan, h0]
    | cons c s' =>
      have hstep : subScan toks repl (f + 1) prev (c :: s') =
          c :: subScan toks repl f (some c) s' := by
        simp [subScan, h0]
      rw [hstep]
      rw [ih (some c) s' (by simpa using hle) ?_]
      intro i hi
      have := hfail (i + 1) (by simpa using Nat.succ_le_succ hi)
      rwa [prevAfter_cons, List.drop_succ_cons] at this

theorem name_sub_all_id (names : List (List Char)) (t : List Char)
    (h : ∀ n ∈ names, name_sub n t = t) : name_sub_all names t = t := by
  induction names with
  | nil => rfl
  | cons n ns ih =>
    show List.foldl (fun acc m => name_sub m acc) (name_sub n t) ns = t
    rw [h n (List.mem_cons_self n ns)]
    exact ih fun m hm => h m (List.mem_cons_of_mem n hm)

/-- `\b name \b` cannot match inside a subject of length at most 2 when the
name is longer than 2 characters. -/
theorem matchToks_name_short (n : List Char) (hlen : 2 < n.length) (prev : Option Char)
    (s : List Char) (hs : s.length ≤ 2) :
    matchToks (n.map ciLit ++ [Tok.wb]) prev s = none := by
  cases h : matchToks (n.map ciLit ++ [Tok.wb]) prev s with
  | none => rfl
  | some k =>
    obtain ⟨hk, hle, _, _⟩ := matchToks_ciLits_wb n prev s k h
    omega

theorem matchToks_name_author_name (n : List Char) (hlen : 2 < n.length)
    (hne : n.map Char.toLower ≠ "author_name".data) (prev : Option Char) :
    matchToks (n.map ciLit ++ [Tok.wb]) prev "AUTHOR_NAME]".data = none := by
  cases h : matchToks (n.map ciLit ++ [Tok.wb]) prev "AUTHOR_NAME]".data with
  | none => rfl
  | some k =>
    exfalso
    obtain ⟨hk, hle, hmap, hbd⟩ := matchToks_ciLits_wb n prev _ k h
    rw [(by decide : ("AUTHOR_NAME]".data).length = 12)] at hle
    subst hk
    set K := n.length with hK
    have hbd' : boundaryAt ("AUTHOR_NAME]".data[K-1]?)
        (("AUTHOR_NAME]".data.drop K).head?) = true := by
      unfold prevAfter at hbd
      rw [if_neg (by omega)] at hbd
      exact hbd
    interval_cases K <;>
      first
        | exact absurd hbd' (by decide)
        | exact hne (hmap.symm.trans
            (by decide : ("AUTHOR_NAME]".data.take 11).map Char.toLower = "author_name".data))

theorem matchToks_name_email (n : List Char) (hlen : 2 < n.length)
    (hne : n.map Char.toLower ≠ "email".data) (prev : Option Char) :
    matchToks (n.map ciLit ++ [Tok.wb]) prev "EMAIL]".data = none := by
  cases h : matchToks (n.map ciLit ++ [Tok.wb]) prev "EMAIL]".data with
  | none => rfl
  | some k =>
    exfalso
    obtain ⟨hk, hle, hmap, hbd⟩ := matchToks_ciLits_wb n prev _ k h
    rw [(by decide : ("EMAIL]".data).length = 6)] at hle
    subst hk
    set K := n.length with hK
    have hbd' : boundaryAt ("EMAIL]".data[K-1]?)
        (("EMAIL]".data.drop K).head?) = true := by
      unfold prevAfter at hbd
      rw [if_neg (by omega)] at hbd
      exact hbd
    interval_cases K <;>
      first
        | exact absurd hbd' (by decide)
        | exact hne (hmap.symm.trans
            (by decide : ("EMAIL]".data.take 5).map Char.toLower = "email".data))

theorem matchToks_name_orcid (n : List Char) (hlen : 2 < n.length)
    (hne : n.map Char.toLower ≠ "orcid".data) (prev : Option Char) :
    matchToks (n.map ciLit ++ [Tok.wb]) prev "ORCID]".data = none := by
  cases h : matchToks (n.map ciLit ++ [Tok.wb]) prev "ORCID]".data with
  | none => rfl
  | some k =>
    exfalso
    obtain ⟨hk, hle, hmap, hbd⟩ := matchToks_ciLits_wb n prev _ k h
    rw [(by decide : ("ORCID]".data).length = 6)] at hle
    subst hk
    set K := n.length with hK
    have hbd' : boundaryAt ("ORCID]".data[K-1]?)
        (("ORCID]".data.drop K).head?) = true := by
      unfold prevAfter at hbd
      rw [if_neg (by omega)] at hbd
      exact hbd
    interval_cases K <;>
      first
        | exact absurd hbd' (by decide)
        | exact hne (hmap.symm.trans
            (by decide : ("ORCID]".data.take 5).map Char.toLower = "orcid".data))

theorem matchToks_name_affiliation (n : List Char) (hlen : 2 < n.length)
    (hne : n.map Char.toLower ≠ "author_affiliation".data) (prev : Option Char) :
    matchToks (n.map ciLit ++ [Tok.wb]) prev "AUTHOR_AFFILIATION]".data = none := by
  cases h : matchToks (n.map ciLit ++ [Tok.wb]) prev "AUTHOR_AFFILIATION]".data with
  | none => rfl
  | some k =>
    exfalso
    obtain ⟨hk, hle, hmap, hbd⟩ := matchToks_ciLits_wb n prev _ k h
    rw [(by decide : ("AUTHOR_AFFILIATION]".data).length = 19)] at hle
    subst hk
    set K := n.length with hK
    have hbd' : boundaryAt ("AUTHOR_AFFILIATION]".data[K-1]?)
        (("AUTHOR_AFFILIATION]".data.drop K).head?) = true := by
      unfold prevAfter at hbd
      rw [if_neg (by omega)] at hbd
      exact hbd
    interval_cases K <;>
      first
        | exact absurd hbd' (by decide)
        | exact hne (hmap.symm.trans
            (by decide : ("AUTHOR_AFFILIATION]".data.take 18).map Char.toLower =
              "author_affiliation".data))

theorem name_sub_fix_an (n : List Char) (hlen : 2 < n.length)
    (hne : n.map Char.toLower ≠ "author_name".data) :
    name_sub n "[AUTHOR_NAME]".data = "[AUTHOR_NAME]".data := by
  show subScan (nameToks n) "[AUTHOR_NAME]".data ("[AUTHOR_NAME]".data).length none
    "[AUTHOR_NAME]".data = "[AUTHOR_NAME]".data
  refine subScan_id _ _ _ _ _ (Nat.le_refl _) ?_
  intro i hi
  rw [(by decide : ("[AUTHOR_NAME]".data).length = 13)] at hi
  interval_cases i <;>
    first
      | exact matchToks_wb_none _ _ _ (by decide)
      | (rw [show nameToks n = Tok.wb :: (n.map ciLit ++ [Tok.wb]) from rfl]
         refine Eq.trans (matchToks_wb_pass _ _ _ (by decide)) ?_
         first
           | exact matchToks_name_author_name n hlen hne _
           | exact matchToks_name_short n hlen _ _ (by decide))

theorem name_sub_fix_em (n : List Char) (hlen : 2 < n.length)
    (hne : n.map Char.toLower ≠ "email".data) :
    name_sub n "[EMAIL]".data = "[EMAIL]".data := by
  show subScan (nameToks n) "[AUTHOR_NAME]".data ("[EMAIL]".data).length none
    "[EMAIL]".data = "[EMAIL]".data
  refine subScan_id _ _ _ _ _ (Nat.le_refl _) ?_
  intro i hi
  rw [(by decide : ("[EMAIL]".data).length = 7)] at hi
  interval_cases i <;>
    first
      | exact matchToks_wb_none _ _ _ (by decide)
      | (rw [show nameToks n = Tok.wb :: (n.map ciLit ++ [Tok.wb]) from rfl]
         refine Eq.trans (matchToks_wb_pass _ _ _ (by decide)) ?_
         first
           | exact matchToks_name_email n hlen hne _
           | exact matchToks_name_short n hlen _ _ (by decide))

theorem name_sub_fix_or (n : List Char) (hlen : 2 < n.length)
    (hne : n.map Char.toLower ≠ "orcid".data) :
    name_sub n "[ORCID]".data = "[ORCID]".data := by
  show subScan (nameToks n) "[AUTHOR_NAME]".data ("[ORCID]".data).length none
    "[ORCID]".data = "[ORCID]".data
  refine subScan_id _ _ _ _ _ (Nat.le_refl _) ?_
  intro i hi
  rw [(by decide : ("[ORCID]".data).length = 7)] at hi
  interval_cases i <;>
    first
      | exact matchToks_wb_none _ _ _ (by decide)
      | (rw [show nameToks n = Tok.wb :: (n.map ciLit ++ [Tok.wb]) from rfl]
         refine Eq.trans (matchToks_wb_pass _ _ _ (by decide)) ?_
         first
           | exact matchToks_name_orcid n hlen hne _
           | exact matchToks_name_short n hlen _ _ (by decide))

theorem name_sub_fix_af (n : List Char) (hlen : 2 < n.length)
    (hne : n.map Char.toLower ≠ "author_affiliation".data) :
    name_sub n "[AUTHOR_AFFILIATION]".data = "[AUTHOR_AFFILIATION]".data := by
  show subScan (nameToks n) "[AUTHOR_NAME]".data ("[AUTHOR_AFFILIATION]".data).length none
    "[AUTHOR_AFFILIATION]".data = "[AUTHOR_AFFILIATION]".data
  refine subScan_id _ _ _ _ _ (Nat.le_refl _) ?_
  intro i hi
  rw [(by decide : ("[AUTHOR_AFFILIATION]".data).length = 20)] at hi
  interval_cases i <;>
    first
      | exact matchToks_wb_none _ _ _ (by decide)
      | (rw [show nameToks n = Tok.wb :: (n.map ciLit ++ [Tok.wb]) from rfl]
         refine Eq.trans (matchToks_wb_pass _ _ _ (by decide)) ?_
         first
           | exact matchToks_name_affiliation n hlen hne _
           | exact matchToks_name_short n hlen _ _ (by decide))

/-- Counterexample to claim C9 as stated: `"[EMAIL]"` is itself a possible
output of the redaction pass (first conjunct), yet re-running the pass on it
with the extracted name set `{"EMAIL"}` — a legitimate recognizer output of
length `> 2` — rewrites it, because `\bEMAIL\b` matches inside the
placeholder token (the brackets are word boundaries). -/
theorem anonymize_run_text_not_idempotent :
    anonymize_run_text [] "a@b.cd".data = "[EMAIL]".data ∧
    anonymize_run_text ["EMAIL".data] "[EMAIL]".data = "[[AUTHOR_NAME]]".data ∧
    "[[AUTHOR_NAME]]".data ≠ "[EMAIL]".data :=
  ⟨by decide, by decide, by decide⟩

/-- Claim C9 (amended): each placeholder token is a fixed point of the whole
per-run redaction — name substitution included — for every detected name set
whose members have length `> 2` and are not (case-insensitively) one of the
tokens' inner words `AUTHOR_NAME`, `EMAIL`, `ORCID`, `AUTHOR_AFFILIATION`;
the email pattern, the ORCID pattern and the affiliation classification
never fire on a placeholder token. -/
theorem anonymize_run_text_placeholder_fixed (names : List (List Char))
    (hnames : ∀ n ∈ names, 2 < n.length ∧ pyLower n ∉ placeholderInnerWords) :
    ∀ t ∈ placeholderTokens, anonymize_run_text names t = t := by
  have hword : ∀ n ∈ names, 2 < n.length ∧
      n.map Char.toLower ≠ "author_name".data ∧
      n.map Char.toLower ≠ "email".data ∧
      n.map Char.toLower ≠ "orcid".data ∧
      n.map Char.toLower ≠ "author_affiliation".data := by
    intro n hn
    obtain ⟨h1, h2⟩ := hnames n hn
    refine ⟨h1, ?_, ?_, ?_, ?_⟩ <;>
      · intro hc
        exact h2 (by simp [placeholderInnerWords, pyLower, hc])
  intro t ht
  simp only [placeholderTokens, List.mem_cons, List.not_mem_nil, or_false] at ht
  rcases ht with rfl | rfl | rfl | rfl
  · have h1 : name_sub_all names "[AUTHOR_NAME]".data = "[AUTHOR_NAME]".data :=
      name_sub_all_id _ _ fun n hn => name_sub_fix_an n (hword n hn).1 (hword n hn).2.1
    simp only [anonymize_run_text]
    rw [if_neg (by decide : ¬ (is_likely_affiliation ("[AUTHOR_NAME]".data) = true)), h1]
    decide
  · have h1 : name_sub_all names "[EMAIL]".data = "[EMAIL]".data :=
      name_sub_all_id _ _ fun n hn => name_sub_fix_em n (hword n hn).1 (hword n hn).2.2.1
    simp only [anonymize_run_text]
    rw [if_neg (by decide : ¬ (is_likely_affiliation ("[EMAIL]".data) = true)), h1]
    decide
  · have h1 : name_sub_all names "[ORCID]".data = "[ORCID]".data :=
      name_sub_all_id _ _ fun n hn => name_sub_fix_or n (hword n hn).1 (hword n hn).2.2.2.1
    simp only [anonymize_run_text]
    rw [if_neg (by decide : ¬ (is_likely_affiliation ("[ORCID]".data) = true)), h1]
    decide
  · have h1 : name_sub_all names "[AUTHOR_AFFILIATION]".data = "[AUTHOR_AFFILIATION]".data :=
      name_sub_all_id _ _ fun n hn =>
        name_sub_fix_af n (hword n hn).1 (hword n hn).2.2.2.2
    simp only [anonymize_run_text]
    rw [if_neg (by decide : ¬ (is_likely_affiliation ("[AUTHOR_AFFILIATION]".data) = true)), h1]
    decide

theorem anonymize_run_text_placeholder_fixed_witness :
    (∀ n ∈ [("John Smith".data : List Char)],
      2 < n.length ∧ pyLower n ∉ placeholderInnerWords) ∧
    anonymize_run_text ["John Smith".data] "[EMAIL]".data = "[EMAIL]".data :=
  ⟨by decide,
   anonymize_run_text_placeholder_fixed ["John Smith".data] (by decide)
     "[EMAIL]".data (by decide)⟩

end DocxAnon
